import Mathlib

/-!
Shallow embedding of the consultation-report web application (`myapp.py`).

The application is a single-form Flask app: validators (`validate_date_not_above_current`,
`validate_numbers_only`, the `Regexp` letter/space checks, `FileRequired`/`FileAllowed`),
a `ConsultationForm` schema, an `index` route that validates the form and calls
`generate_pdf`, a `send_report` route serving files from the `uploads/` directory via
werkzeug's `send_from_directory`, and werkzeug's `secure_filename` used for the
generated PDF's name.

Modelling conventions:
* Python strings are Lean `String`s; character-level work happens on `List Char`.
* A validator that can raise `ValidationError` is modelled as returning `Option String`
  (`none` = passes, `some msg` = raises `ValidationError msg`).
* Filesystem paths are `List Char`; the filesystem is a list of written paths.
* Unicode character classes (`str.isdigit`, regex `\s`, `str.isspace`) are modelled on
  the character repertoire relevant to this development; the doc comment of each class
  states the modelled ranges.
-/

/-- Python's `str.isspace` / regex `\s` character class (`re` on `str` patterns):
ASCII whitespace 0x09–0x0D and 0x20, the separator controls 0x1C–0x1F, NEL 0x85,
NBSP 0xA0, and the Unicode space separators U+1680, U+2000–U+200A, U+2028, U+2029,
U+202F, U+205F, U+3000. -/
def pyIsSpaceChar (c : Char) : Bool :=
  let n := c.toNat
  (9 ≤ n && n ≤ 13) || n == 32 || (28 ≤ n && n ≤ 31) || n == 133 || n == 160 ||
    n == 5760 || (8192 ≤ n && n ≤ 8202) || n == 8232 || n == 8233 || n == 8239 ||
    n == 8287 || n == 12288

/-- The ASCII letter class `[a-zA-Z]` of the form's `Regexp` validators. -/
def isAsciiLetter (c : Char) : Bool :=
  (65 ≤ c.toNat && c.toNat ≤ 90) || (97 ≤ c.toNat && c.toNat ≤ 122)

/-- ASCII decimal digit `0`–`9`. -/
def isAsciiDigitC (c : Char) : Bool :=
  48 ≤ c.toNat && c.toNat ≤ 57

/-- A decimal digit character (Unicode general category Nd, i.e. the characters Python's
`str.isdecimal` accepts), restricted to the ranges used in this development:
ASCII `0`–`9` and the Arabic-Indic digits U+0660–U+0669.  The superscript digits
U+00B9, U+00B2, U+00B3 are **not** decimal digits. -/
def isDecimalDigit (c : Char) : Bool :=
  isAsciiDigitC c || (1632 ≤ c.toNat && c.toNat ≤ 1641)

/-- The character class accepted by Python's `str.isdigit` (Numeric_Type Decimal or
Digit), restricted to the ranges used in this development: all decimal digits plus the
superscript digits U+00B9 (`¹`), U+00B2 (`²`), U+00B3 (`³`).  Python's `str.isdigit`
accepts further Unicode digit characters that never occur in this development. -/
def pyIsDigitChar (c : Char) : Bool :=
  isDecimalDigit c || c.toNat == 178 || c.toNat == 179 || c.toNat == 185

/-- Python `str.isdigit`: non-empty and every character a digit character. -/
def str_isdigit (s : String) : Bool :=
  !s.data.isEmpty && s.data.all pyIsDigitChar

/-- A Python `datetime.date`: year, month, day.  (`datetime` restricts years to
1–9999; `strptime` with `%Y-%m-%d` only produces such dates.) -/
structure PyDate where
  year : Nat
  month : Nat
  day : Nat
deriving DecidableEq

/-- Python `date` comparison `a < b` (dates compare lexicographically by
(year, month, day)), as a Bool, mirroring the executable comparison. -/
def PyDate.ltb (a b : PyDate) : Bool :=
  Nat.blt a.year b.year ||
    (a.year == b.year && (Nat.blt a.month b.month ||
      (a.month == b.month && Nat.blt a.day b.day)))

/-- Strict lexicographic order on dates, as a proposition. -/
def PyDate.Lt (a b : PyDate) : Prop :=
  a.year < b.year ∨
    (a.year = b.year ∧ (a.month < b.month ∨ (a.month = b.month ∧ a.day < b.day)))

instance (a b : PyDate) : Decidable (PyDate.Lt a b) := by
  unfold PyDate.Lt; infer_instance

theorem PyDate.ltb_iff (a b : PyDate) : PyDate.ltb a b = true ↔ PyDate.Lt a b := by
  unfold PyDate.ltb PyDate.Lt
  simp [Nat.blt_eq]

/-- `validate_date_not_above_current` (myapp.py lines 28–34): raises
`ValidationError("Date of birth cannot be in the future.")` when `field.data > today`.
The `except ValueError` branch of the source wraps only this comparison; comparing two
`datetime.date` values never raises `ValueError`, so the branch contributes nothing
to the function on parsed dates. -/
def validate_date_not_above_current (d today : PyDate) : Option String :=
  if PyDate.ltb today d then some "Date of birth cannot be in the future." else none

/-- `validate_numbers_only` (myapp.py lines 38–41): raises unless `field.data.isdigit()`. -/
def validate_numbers_only (s : String) : Option String :=
  if str_isdigit s then none else some "This field should contain numbers only."

/-- The regex `^[a-zA-Z\s]*$` used by the form's `Regexp` validators: every character
is an ASCII letter or matches `\s`.  (`re.match` anchored at both ends; the `$`-before-
trailing-newline subtlety is absorbed because `\n` is itself in `\s`.) -/
def matches_letters_spaces (s : String) : Bool :=
  s.data.all fun c => isAsciiLetter c || pyIsSpaceChar c

/-- WTForms `DataRequired` on a string field: fails when the value is empty or
whitespace-only (`not field.data or not field.data.strip()`). -/
def required_errors (s : String) : List String :=
  if s.data.all pyIsSpaceChar then ["This field is required."] else []

/-- A `StringField` with `DataRequired` followed by
`Regexp(r"^[a-zA-Z\s]*$", message = msg)`; `DataRequired` raises `StopValidation`,
so the regex only runs on non-empty data. -/
def letters_field_errors (msg : String) (s : String) : List String :=
  if s.data.all pyIsSpaceChar then ["This field is required."]
  else if matches_letters_spaces s then [] else [msg]

/-- `physician_name` field validation (myapp.py lines 53–61). -/
def physician_name_errors (s : String) : List String :=
  letters_field_errors "Physician name must contain characters only." s

/-- `patient_first_name` field validation (myapp.py lines 65–74). -/
def patient_first_name_errors (s : String) : List String :=
  letters_field_errors "Patient first name must contain characters only." s

/-- `patient_last_name` field validation (myapp.py lines 75–84). -/
def patient_last_name_errors (s : String) : List String :=
  letters_field_errors "Patient last name must contain characters only." s

/-- A `StringField` with `DataRequired` followed by `validate_numbers_only`
(`patient_contact`, `physician_contact`). -/
def contact_field_errors (s : String) : List String :=
  if s.data.all pyIsSpaceChar then ["This field is required."]
  else match validate_numbers_only s with
    | none => []
    | some m => [m]

/-- Number of days in a month, with the Gregorian leap-year rule, as enforced by
`datetime.date`. -/
def days_in_month (y m : Nat) : Nat :=
  if m = 2 then
    (if (y % 4 = 0 ∧ y % 100 ≠ 0) ∨ y % 400 = 0 then 29 else 28)
  else if m = 4 ∨ m = 6 ∨ m = 9 ∨ m = 11 then 30 else 31

/-- Digits of an all-ASCII-digit string to a natural number. -/
def digitsToNat (l : List Char) : Nat :=
  l.foldl (fun a c => a * 10 + (c.toNat - 48)) 0

/-- Python `str.split(sep)` for a single-character separator: splits at every
occurrence, keeping empty pieces (`"".split(sep) = [""]`). -/
def splitOnChar (sep : Char) : List Char → List (List Char)
  | [] => [[]]
  | c :: cs =>
    if c == sep then [] :: splitOnChar sep cs
    else
      match splitOnChar sep cs with
      | [] => [[c]]
      | g :: gs => (c :: g) :: gs

/-- `datetime.datetime.strptime(s, "%Y-%m-%d").date()`: `%Y` matches exactly four
digits, `%m` and `%d` one or two digits; the resulting numbers must form a valid
`datetime.date` (month 1–12, day within the month, year ≥ 1).  Returns `none` when
`strptime`/`date` raise `ValueError`. -/
def strptime_Ymd (s : String) : Option PyDate :=
  match splitOnChar '-' s.data with
  | [ys, ms, ds] =>
    if ys.length = 4 ∧ ys.all isAsciiDigitC ∧
        1 ≤ ms.length ∧ ms.length ≤ 2 ∧ ms.all isAsciiDigitC ∧
        1 ≤ ds.length ∧ ds.length ≤ 2 ∧ ds.all isAsciiDigitC then
      let y := digitsToNat ys
      let m := digitsToNat ms
      let d := digitsToNat ds
      if 1 ≤ y ∧ 1 ≤ m ∧ m ≤ 12 ∧ 1 ≤ d ∧ d ≤ days_in_month y m then
        some ⟨y, m, d⟩
      else none
    else none
  | _ => none

/-- Validation of the `patient_dob` `DateField` (myapp.py lines 85–89).  WTForms first
processes the raw value with `strptime`; on `ValueError` it records the process error
`"Not a valid date value."` and leaves `field.data = None`, after which `DataRequired`
raises `StopValidation("This field is required.")` — the attached
`validate_date_not_above_current` never sees unparsed input.  On a parsed date,
`DataRequired` passes (a `date` is truthy) and the custom validator runs. -/
def patient_dob_errors (raw : String) (today : PyDate) : List String :=
  match strptime_Ymd raw with
  | none => ["Not a valid date value.", "This field is required."]
  | some d =>
    match validate_date_not_above_current d today with
    | none => []
    | some m => [m]

/-- ASCII lowercasing, modelling Python `str.lower` on the filenames appearing here. -/
def toLowerL (l : List Char) : List Char :=
  l.map fun c => if 65 ≤ c.toNat ∧ c.toNat ≤ 90 then Char.ofNat (c.toNat + 32) else c

/-- `pre` is a prefix of `l` (Python `str.startswith`). -/
def startsWithL : List Char → List Char → Bool
  | [], _ => true
  | _ :: _, [] => false
  | p :: ps, c :: cs => p == c && startsWithL ps cs

/-- `suf` is a suffix of `l` (Python `str.endswith`). -/
def endsWithL (l suf : List Char) : Bool :=
  startsWithL suf.reverse l.reverse

/-- flask_wtf `FileAllowed(["jpg", "png"], "Images only!")`: the lowered filename must
end with `"." + ext` for some allowed `ext`. -/
def file_allowed (filename : String) : Bool :=
  ["jpg", "png"].any fun ext => endsWithL (toLowerL filename.data) ('.' :: ext.data)

/-- `clinic_logo` field validation (myapp.py lines 49–52): `FileRequired` (the upload
must be present with a non-empty filename), then `FileAllowed`.  The field's value is
modelled by the submitted filename (`none` = no upload). -/
def clinic_logo_errors : Option String → List String
  | none => ["This field is required."]
  | some f =>
    if f.data.isEmpty then ["This field is required."]
    else if file_allowed f then [] else ["Images only!"]

/-- A raw form submission: every field as submitted.  `clinic_logo` is the uploaded
file's client-supplied filename; `patient_dob_raw` is the raw date string. -/
structure ConsultationForm where
  clinic_name : String
  clinic_logo : Option String
  physician_name : String
  patient_contact : String
  patient_first_name : String
  patient_last_name : String
  patient_dob_raw : String
  physician_contact : String
  chief_complaint : String
  consultation_note : String

/-- `form.validate_on_submit()` for `ConsultationForm`: every field's validator chain
(run independently per field) produces no error. -/
def form_validate (f : ConsultationForm) (today : PyDate) : Bool :=
  (required_errors f.clinic_name).isEmpty &&
  (clinic_logo_errors f.clinic_logo).isEmpty &&
  (physician_name_errors f.physician_name).isEmpty &&
  (contact_field_errors f.patient_contact).isEmpty &&
  (patient_first_name_errors f.patient_first_name).isEmpty &&
  (patient_last_name_errors f.patient_last_name).isEmpty &&
  (patient_dob_errors f.patient_dob_raw today).isEmpty &&
  (contact_field_errors f.physician_contact).isEmpty &&
  (required_errors f.chief_complaint).isEmpty &&
  (required_errors f.consultation_note).isEmpty

/-- The digit character for `n % 10`, used by Python's zero-padded decimal
formatting of date components. -/
def digitChar10 (n : Nat) : Char :=
  match n % 10 with
  | 0 => '0' | 1 => '1' | 2 => '2' | 3 => '3' | 4 => '4'
  | 5 => '5' | 6 => '6' | 7 => '7' | 8 => '8' | _ => '9'

/-- Two-digit zero-padded decimal (`%m`, `%d` of `str(date)`). -/
def pad2 (n : Nat) : List Char :=
  [digitChar10 (n / 10), digitChar10 n]

/-- Four-digit zero-padded decimal (`%Y` of `str(date)`; `datetime` years are ≤ 9999). -/
def pad4 (n : Nat) : List Char :=
  [digitChar10 (n / 1000), digitChar10 (n / 100), digitChar10 (n / 10), digitChar10 n]

/-- `str(d)` for a `datetime.date`: ISO format `YYYY-MM-DD`. -/
def PyDate.isoformat (d : PyDate) : String :=
  ⟨pad4 d.year ++ '-' :: (pad2 d.month ++ '-' :: pad2 d.day)⟩

/-- The character class kept by werkzeug's `_filename_ascii_strip_re`:
`[A-Za-z0-9_.-]`. -/
def keep_char (c : Char) : Bool :=
  isAsciiLetter c || isAsciiDigitC c || c.toNat == 95 || c.toNat == 46 || c.toNat == 45

/-- `'.'` or `'_'`, the characters stripped from both ends by
`secure_filename`'s `.strip("._")`. -/
def is_dot_or_us (c : Char) : Bool :=
  c == '.' || c == '_'

/-- The `encode("ascii", "ignore")` step of `secure_filename`: non-ASCII characters
are dropped.  (The preceding NFKD normalisation acts as the identity on the ASCII
repertoire this development feeds through `secure_filename`.) -/
def ascii_strip (l : List Char) : List Char :=
  l.filter fun c => c.toNat < 128

/-- The `filename.replace(os.sep, " ")` step of `secure_filename` (POSIX: `os.sep`
is `/`, `os.path.altsep` is `None`). -/
def sep_to_space (c : Char) : Char :=
  if c.toNat = 47 then ' ' else c

/-- Python `str.split()` with no argument: split on runs of whitespace, no empty
pieces. -/
def py_split_ws_aux (acc : List Char) : List Char → List (List Char)
  | [] => if acc.isEmpty then [] else [acc.reverse]
  | c :: cs =>
    if pyIsSpaceChar c then
      (if acc.isEmpty then py_split_ws_aux [] cs else acc.reverse :: py_split_ws_aux [] cs)
    else py_split_ws_aux (c :: acc) cs

/-- Python `str.split()` with no argument. -/
def py_split_ws (l : List Char) : List (List Char) :=
  py_split_ws_aux [] l

/-- `sep.join(pieces)` for a single-character separator. -/
def joinWith (sep : Char) : List (List Char) → List Char
  | [] => []
  | [g] => g
  | g :: gs => g ++ sep :: joinWith sep gs

/-- `l.strip("._")`: drop leading and trailing `'.'`/`'_'` characters. -/
def strip_du (l : List Char) : List Char :=
  ((l.dropWhile is_dot_or_us).reverse.dropWhile is_dot_or_us).reverse

/-- werkzeug's `secure_filename`: NFKD-normalise and drop non-ASCII, replace path
separators by spaces, join the whitespace-split pieces with `_`, delete characters
outside `[A-Za-z0-9_.-]`, and strip `"._"` from both ends.  (The Windows
device-name special case does not apply on POSIX.) -/
def secure_filename (s : String) : String :=
  ⟨strip_du ((joinWith '_' (py_split_ws ((ascii_strip s.data).map sep_to_space))).filter
    keep_char)⟩

/-- The generated report's filename (myapp.py line 129–130):
`secure_filename(f"CR_{last}_{first}_{dob}.pdf")` where `{dob}` renders the parsed
date in ISO format. -/
def report_filename (lastName firstName : String) (dob : PyDate) : String :=
  secure_filename ("CR_" ++ lastName ++ "_" ++ firstName ++ "_" ++ PyDate.isoformat dob
    ++ ".pdf")

/-- Path components split on `/` (Python `path.split("/")`). -/
def splitOnSlash (l : List Char) : List (List Char) :=
  splitOnChar '/' l

/-- The component `".."`. -/
def ddot : List Char := ['.', '.']

/-- The component `"."`. -/
def sdot : List Char := ['.']

/-- The component loop of `posixpath.normpath`: skip empty and `"."` components;
for `".."`, keep it when the path is relative and the stack is empty or already ends
in `".."`, pop otherwise (or drop it at the root of an absolute path); push every
other component.  `acc` is the reversed stack `new_comps`. -/
def normparts (slashes : Nat) : List (List Char) → List (List Char) → List (List Char)
  | [], acc => acc.reverse
  | c :: cs, acc =>
    if c = [] ∨ c = sdot then normparts slashes cs acc
    else if c = ddot then
      if (slashes = 0 ∧ acc = []) ∨ acc.head? = some ddot then
        normparts slashes cs (ddot :: acc)
      else if acc.isEmpty then normparts slashes cs acc
      else normparts slashes cs acc.tail
    else normparts slashes cs (c :: acc)

/-- The number of initial slashes `posixpath.normpath` preserves (two slashes are
kept verbatim per POSIX, three or more collapse to one). -/
def absCount (p : List Char) : Nat :=
  if startsWithL ['/', '/'] p && !startsWithL ['/', '/', '/'] p then 2
  else if startsWithL ['/'] p then 1 else 0

/-- The tail end of `posixpath.normpath`: re-attach the preserved initial slashes
and return `"."` for an empty result (`return path or "."`). -/
def normpath_finish (slashes : Nat) (joined : List Char) : List Char :=
  if List.replicate slashes '/' ++ joined = [] then sdot
  else List.replicate slashes '/' ++ joined

/-- `posixpath.normpath`. -/
def posix_normpath (p : List Char) : List Char :=
  if p = [] then sdot
  else normpath_finish (absCount p)
    (joinWith '/' (normparts (absCount p) (splitOnSlash p) []))

/-- `posixpath.join(a, b)` for two arguments. -/
def posix_join (a b : List Char) : List Char :=
  if startsWithL ['/'] b then b
  else if a = [] ∨ a.getLast? = some '/' then a ++ b
  else a ++ '/' :: b

/-- The guard of werkzeug's `safe_join` applied to the normalised filename, and the
final join: reject absolute paths, `".."`, and anything starting with `"../"`. -/
def safe_join_checked (dir fn : List Char) : Option (List Char) :=
  if startsWithL ['/'] fn || fn == ddot || startsWithL (ddot ++ ['/']) fn then none
  else some (posix_join dir fn)

/-- werkzeug's `safe_join(directory, filename)`: normalise the filename (the empty
filename stays empty), run the guard, and join onto the directory. -/
def safe_join (directory filename : List Char) : Option (List Char) :=
  safe_join_checked (if directory = [] then sdot else directory)
    (if filename = [] then filename else posix_normpath filename)

/-- Lookup of a stored file by exact path. -/
def store_get (p : List Char) : List (List Char × List Char) → Option (List Char)
  | [] => none
  | (k, v) :: rest => if k = p then some v else store_get p rest

/-- werkzeug/flask `send_from_directory(directory, path)`: `safe_join`, 404
(`none`) when it rejects the path or the file is absent, otherwise the file at the
joined path.  The filesystem is modelled by `store`, a list of (path, contents). -/
def send_from_directory (directory : List Char) (path : List Char)
    (store : List (List Char × List Char)) : Option (List Char × List Char) :=
  match safe_join directory path with
  | none => none
  | some p =>
    match store_get p store with
    | none => none
    | some bytes => some (p, bytes)

/-- The `GET /uploads/<path:path>` handler `send_report` (myapp.py lines 113–116):
`send_from_directory("uploads", path)`. -/
def send_report (path : String) (store : List (List Char × List Char)) :
    Option (List Char × List Char) :=
  send_from_directory "uploads".data path.data store

/-- Modelled from the spec: the resolved location of path `p` lies within the
upload directory — its `posixpath`-normalisation is `uploads` itself or starts
with `uploads/`. -/
def resolves_within_uploads (p : List Char) : Bool :=
  (posix_normpath p == "uploads".data) ||
    startsWithL "uploads/".data (posix_normpath p)

/-- The path the uploaded logo is written to (myapp.py line 134):
`"uploads/" + form.clinic_logo.data.filename`, with no sanitisation. -/
def clinic_logo_save_path (filename : String) : List Char :=
  "uploads/".data ++ filename.data

/-- The outcome of a `POST /` request. -/
inductive WebResponse where
  | formPage : WebResponse
  | attachment : List Char → WebResponse
  | serverError : WebResponse
deriving DecidableEq

/-- `generate_pdf` (myapp.py lines 125–150) over an explicit filesystem (the list of
paths written so far): compute the sanitised report filename and its path under the
upload folder, save the uploaded logo to `"uploads/" + filename` (unsanitised),
render the HTML and write the PDF.  `pdf_ok` models whether the weasyprint
`write_pdf` call succeeds; on failure the exception propagates with the filesystem
as it stands (`Except.error`). -/
def generate_pdf (f : ConsultationForm) (dob : PyDate) (logoName : String)
    (pdf_ok : Bool) (fs : List (List Char)) :
    Except (List (List Char)) (List (List Char) × List Char) :=
  let filename := report_filename f.patient_last_name f.patient_first_name dob
  let filepath := "uploads/".data ++ filename.data
  let fs1 := fs ++ [clinic_logo_save_path logoName]
  if pdf_ok then Except.ok (fs1 ++ [filepath], filepath) else Except.error fs1

/-- The `POST /` handler `index` (myapp.py lines 103–110): validate the form; on
success run `generate_pdf` (whose written PDF is returned as an attachment, and whose
failure surfaces as an unhandled server error), otherwise re-render the form.  The
match on the parsed date and logo filename is guaranteed to succeed when validation
does; the fallback arm only makes the function total. -/
def index (f : ConsultationForm) (today : PyDate) (pdf_ok : Bool)
    (fs : List (List Char)) : WebResponse × List (List Char) :=
  if form_validate f today then
    match strptime_Ymd f.patient_dob_raw, f.clinic_logo with
    | some d, some logoName =>
      match generate_pdf f d logoName pdf_ok fs with
      | Except.ok (fs', name) => (WebResponse.attachment name, fs')
      | Except.error fs' => (WebResponse.serverError, fs')
    | _, _ => (WebResponse.formPage, fs)
  else (WebResponse.formPage, fs)

/-- A concrete submission, valid in every field, whose uploaded logo carries the
client-controlled filename `"../evil.png"` (which `FileAllowed` accepts: it ends in
`.png`). -/
def exampleFormEvil : ConsultationForm :=
  { clinic_name := "City Clinic"
    clinic_logo := some "../evil.png"
    physician_name := "John Doe"
    patient_contact := "5550100"
    patient_first_name := "Jane"
    patient_last_name := "Smith"
    patient_dob_raw := "2020-01-01"
    physician_contact := "5550199"
    chief_complaint := "Cough"
    consultation_note := "Rest" }

/-- The same submission with a `.gif` logo. -/
def exampleFormGif : ConsultationForm :=
  { exampleFormEvil with clinic_logo := some "logo.gif" }

/-- The same submission with a well-formed logo but physician name `"John123"`. -/
def exampleFormJohn123 : ConsultationForm :=
  { exampleFormEvil with clinic_logo := some "logo.png", physician_name := "John123" }


/-! ### Helper lemmas: splitting, joining and normalising paths -/

theorem splitOnChar_ne_nil (sep : Char) : ∀ l, splitOnChar sep l ≠ []
  | [] => by simp [splitOnChar]
  | c :: cs => by
    simp only [splitOnChar]
    split
    · simp
    · split <;> simp

theorem splitOnChar_of_not_mem {sep : Char} : ∀ {l : List Char}, sep ∉ l →
    splitOnChar sep l = [l]
  | [], _ => rfl
  | a :: t, h => by
    have h1 : ¬sep = a := fun he => h (he ▸ List.mem_cons_self a t)
    have h2 : sep ∉ t := fun ht => h (List.mem_cons_of_mem a ht)
    have hb : (a == sep) = false := beq_eq_false_iff_ne.mpr fun he => h1 he.symm
    simp only [splitOnChar, hb, Bool.false_eq_true, if_false,
      splitOnChar_of_not_mem h2]

theorem splitOnChar_append {sep : Char} {pre : List Char} (rest : List Char)
    (h : sep ∉ pre) :
    splitOnChar sep (pre ++ sep :: rest) = pre :: splitOnChar sep rest := by
  induction pre with
  | nil => simp [splitOnChar]
  | cons a t ih =>
    have h1 : ¬sep = a := fun he => h (he ▸ List.mem_cons_self a t)
    have h2 : sep ∉ t := fun ht => h (List.mem_cons_of_mem a ht)
    have hb : (a == sep) = false := beq_eq_false_iff_ne.mpr fun he => h1 he.symm
    rw [List.cons_append]
    simp only [splitOnChar, hb, Bool.false_eq_true, if_false]
    rw [ih h2]

theorem mem_splitOnChar {sep : Char} : ∀ {l g : List Char},
    g ∈ splitOnChar sep l → sep ∉ g
  | [], g, hg => by
    simp [splitOnChar] at hg
    simp [hg]
  | c :: cs, g, hg => by
    by_cases hc : (c == sep) = true
    · simp only [splitOnChar, hc, if_true] at hg
      rcases List.mem_cons.mp hg with rfl | hg'
      · simp
      · exact mem_splitOnChar hg'
    · simp only [splitOnChar, hc, if_false] at hg
      rcases hsp : splitOnChar sep cs with _ | ⟨g0, gs⟩
      · exact absurd hsp (splitOnChar_ne_nil sep cs)
      · rw [hsp] at hg
        rcases List.mem_cons.mp hg with rfl | hg'
        · intro hmem
          rcases List.mem_cons.mp hmem with rfl | hmem'
          · exact hc (beq_self_eq_true sep)
          · exact mem_splitOnChar (l := cs) (hsp ▸ List.mem_cons_self g0 gs) hmem'
        · exact mem_splitOnChar (l := cs) (hsp ▸ List.mem_cons_of_mem g0 hg')

theorem joinWith_cons (sep : Char) (g : List Char) {gs : List (List Char)}
    (h : gs ≠ []) : joinWith sep (g :: gs) = g ++ sep :: joinWith sep gs := by
  cases gs with
  | nil => exact absurd rfl h
  | cons g2 gs2 => rfl

theorem splitOnChar_joinWith {sep : Char} : ∀ {nc : List (List Char)}, nc ≠ [] →
    (∀ g ∈ nc, sep ∉ g) → splitOnChar sep (joinWith sep nc) = nc
  | [], h, _ => absurd rfl h
  | [g], _, h2 => by
    simpa [joinWith] using splitOnChar_of_not_mem (h2 g (by simp))
  | g :: g2 :: gs, _, h2 => by
    rw [joinWith_cons sep g (by simp),
      splitOnChar_append _ (h2 g (by simp)),
      splitOnChar_joinWith (by simp) (fun x hx => h2 x (List.mem_cons_of_mem g hx))]

theorem startsWithL_cons (p c : Char) (ps cs : List Char) :
    startsWithL (p :: ps) (c :: cs) = ((p == c) && startsWithL ps cs) := rfl

theorem startsWithL_append_cons (a : List Char) (x : Char) (r : List Char) :
    startsWithL (a ++ [x]) (a ++ x :: r) = true := by
  induction a with
  | nil => simp [startsWithL]
  | cons c t ih =>
    rw [List.cons_append, List.cons_append, startsWithL_cons, ih,
      beq_self_eq_true, Bool.true_and]

theorem startsWithL_cons_of_ne {c d : Char} (cs ds : List Char)
    (h : (c == d) = false) : startsWithL (c :: cs) (d :: ds) = false := by
  simp [startsWithL, h]

theorem normparts_subset {a : Nat} (cs : List (List Char)) :
    ∀ (acc : List (List Char)) (x : List Char), x ∈ normparts a cs acc →
    x ∈ acc ∨ ((x ∈ cs ∨ x = ddot) ∧ x ≠ [] ∧ x ≠ sdot) := by
  induction cs with
  | nil =>
    intro acc x hx
    exact Or.inl (List.mem_reverse.mp (by simpa [normparts] using hx))
  | cons c cs ih =>
    intro acc x hx
    simp only [normparts] at hx
    split at hx
    · rcases ih acc x hx with h | ⟨h1, h2⟩
      · exact Or.inl h
      · exact Or.inr ⟨h1.imp_left (List.mem_cons_of_mem c), h2⟩
    · split at hx
      · split at hx
        · rcases ih _ x hx with h | ⟨h1, h2⟩
          · rcases List.mem_cons.mp h with rfl | h'
            · exact Or.inr ⟨Or.inr rfl, by decide⟩
            · exact Or.inl h'
          · exact Or.inr ⟨h1.imp_left (List.mem_cons_of_mem c), h2⟩
        · split at hx
          · rcases ih acc x hx with h | ⟨h1, h2⟩
            · exact Or.inl h
            · exact Or.inr ⟨h1.imp_left (List.mem_cons_of_mem c), h2⟩
          · rcases ih _ x hx with h | ⟨h1, h2⟩
            · exact Or.inl (List.mem_of_mem_tail h)
            · exact Or.inr ⟨h1.imp_left (List.mem_cons_of_mem c), h2⟩
      · next hc =>
        rename_i hg1
        rcases ih _ x hx with h | ⟨h1, h2⟩
        · rcases List.mem_cons.mp h with rfl | h'
          · exact Or.inr ⟨Or.inl (List.mem_cons_self x cs),
              fun he => hg1 (Or.inl he), fun he => hg1 (Or.inr he)⟩
          · exact Or.inl h'
        · exact Or.inr ⟨h1.imp_left (List.mem_cons_of_mem c), h2⟩

theorem normparts_run {a : Nat} (cs : List (List Char)) :
    ∀ (acc : List (List Char)),
    (∃ xs k, acc = xs ++ List.replicate k ddot ∧ ddot ∉ xs) →
    ∃ k xs, normparts a cs acc = List.replicate k ddot ++ xs ∧ ddot ∉ xs := by
  induction cs with
  | nil =>
    rintro acc ⟨xs, k, hacc, hxs⟩
    refine ⟨k, xs.reverse, ?_, by simpa using hxs⟩
    simp [normparts, hacc, List.reverse_append, List.reverse_replicate]
  | cons c cs ih =>
    rintro acc ⟨xs, k, hacc, hxs⟩
    simp only [normparts]
    split
    · exact ih acc ⟨xs, k, hacc, hxs⟩
    · split
      · split
        · next hcond =>
          rcases hcond with ⟨_, hemp⟩ | hhead
          · exact ih _ ⟨[], 1, by simp [hemp, List.replicate], by simp⟩
          · have hxs_nil : xs = [] := by
              cases xs with
              | nil => rfl
              | cons x xs' =>
                exfalso
                rw [hacc] at hhead
                simp only [List.cons_append, List.head?_cons, Option.some.injEq] at hhead
                exact hxs (hhead ▸ List.mem_cons_self x xs')
            refine ih _ ⟨[], k + 1, ?_, by simp⟩
            rw [hacc, hxs_nil]
            simp [List.replicate_succ]
        · split
          · exact ih acc ⟨xs, k, hacc, hxs⟩
          · next hcond hne =>
            cases xs with
            | nil =>
              exfalso
              rcases Nat.eq_zero_or_pos k with rfl | hk
              · simp [hacc] at hne
              · apply hcond
                refine Or.inr ?_
                obtain ⟨k', rfl⟩ := Nat.exists_eq_add_of_lt hk
                rw [hacc]
                simp [List.replicate_succ]
            | cons x xs' =>
              refine ih _ ⟨xs', k, ?_, fun hm => hxs (List.mem_cons_of_mem x hm)⟩
              rw [hacc]
              simp
      · next hc1 hc2 =>
        refine ih _ ⟨c :: xs, k, by simp [hacc], ?_⟩
        intro hm
        rcases List.mem_cons.mp hm with rfl | hm'
        · exact hc2 rfl
        · exact hxs hm'

theorem normparts_id {a : Nat} : ∀ {cs : List (List Char)} (acc : List (List Char)),
    (∀ c ∈ cs, ¬(c = [] ∨ c = sdot) ∧ c ≠ ddot) →
    normparts a cs acc = acc.reverse ++ cs
  | [], acc, _ => by simp [normparts]
  | c :: cs, acc, h => by
    have hc := h c (List.mem_cons_self c cs)
    have hrest : ∀ x ∈ cs, ¬(x = [] ∨ x = sdot) ∧ x ≠ ddot :=
      fun x hx => h x (List.mem_cons_of_mem c hx)
    simp only [normparts, if_neg hc.1, if_neg hc.2, normparts_id (c :: acc) hrest]
    simp

/-- Classification of `posixpath.normpath` output on a non-empty input: `"."`, an
absolute path, `".."`, something starting `"../"`, or a join of components that
contain no separator and are not `""`, `"."` or `".."`. -/
theorem posix_normpath_classes (l : List Char) (hl : l ≠ []) :
    posix_normpath l = sdot ∨ startsWithL ['/'] (posix_normpath l) = true ∨
    posix_normpath l = ddot ∨ startsWithL (ddot ++ ['/']) (posix_normpath l) = true ∨
    (∃ nc, nc ≠ [] ∧ ddot ∉ nc ∧ (∀ g ∈ nc, '/' ∉ g ∧ g ≠ [] ∧ g ≠ sdot) ∧
      posix_normpath l = joinWith '/' nc) := by
  have hdef : posix_normpath l = normpath_finish (absCount l)
      (joinWith '/' (normparts (absCount l) (splitOnSlash l) [])) := by
    simp [posix_normpath, hl]
  rcases Nat.eq_zero_or_pos (absCount l) with hs | hs
  · obtain ⟨k, xs, hnc, hxs⟩ :=
      normparts_run (a := absCount l) (splitOnSlash l) [] ⟨[], 0, by simp, by simp⟩
    rcases Nat.eq_zero_or_pos k with rfl | hk
    · simp only [List.replicate, List.nil_append] at hnc
      have helem : ∀ g ∈ xs, '/' ∉ g ∧ g ≠ [] ∧ g ≠ sdot := by
        intro g hg
        have hsub := normparts_subset (a := absCount l) (splitOnSlash l) [] g
          (hnc ▸ hg)
        rcases hsub with h0 | ⟨h1, h2, h3⟩
        · simp at h0
        · refine ⟨?_, h2, h3⟩
          rcases h1 with hmem | rfl
          · exact mem_splitOnChar hmem
          · decide
      by_cases hxe : xs = []
      · left
        rw [hdef, hnc, hxe, hs]
        decide
      · right; right; right; right
        have hjne : joinWith '/' xs ≠ [] := by
          cases xs with
          | nil => exact absurd rfl hxe
          | cons g gs =>
            cases gs with
            | nil => simpa [joinWith] using (helem g (by simp)).2.1
            | cons g2 gs2 => simp [joinWith]
        refine ⟨xs, hxe, hxs, helem, ?_⟩
        rw [hdef, hnc, hs]
        simp only [normpath_finish, List.replicate, List.nil_append, if_neg hjne]
    · obtain ⟨k', rfl⟩ : ∃ k', k = k' + 1 := ⟨k - 1, by omega⟩
      rw [List.replicate_succ, List.cons_append] at hnc
      by_cases ht : List.replicate k' ddot ++ xs = []
      · right; right; left
        rw [ht] at hnc
        rw [hdef, hnc, hs]
        decide
      · right; right; right; left
        rw [hdef, hnc, hs]
        rw [joinWith_cons '/' ddot ht]
        have hne2 : (ddot ++ '/' :: joinWith '/' (List.replicate k' ddot ++ xs) :
            List Char) ≠ [] := by
          simp [ddot]
        simp only [normpath_finish, List.replicate, List.nil_append, if_neg hne2]
        exact startsWithL_append_cons ddot '/' _
  · right; left
    obtain ⟨s', hs'⟩ : ∃ s', absCount l = s' + 1 := ⟨absCount l - 1, by omega⟩
    rw [hdef, hs']
    have hne : (List.replicate (s' + 1) '/' ++
        joinWith '/' (normparts (s' + 1) (splitOnSlash l) []) : List Char) ≠ [] := by
      simp [List.replicate_succ]
    simp only [normpath_finish, if_neg hne]
    rw [List.replicate_succ, List.cons_append, startsWithL_cons]
    simp [startsWithL]

/-- `safe_join_checked` on the `uploads` directory only ever produces paths whose
resolved location stays within the upload directory, for every filename of the
classes `posixpath.normpath` can produce. -/
theorem checked_uploads_within (fn p : List Char)
    (hclass : fn = sdot ∨ startsWithL ['/'] fn = true ∨ fn = ddot ∨
      startsWithL (ddot ++ ['/']) fn = true ∨
      (∃ nc, nc ≠ [] ∧ ddot ∉ nc ∧ (∀ g ∈ nc, '/' ∉ g ∧ g ≠ [] ∧ g ≠ sdot) ∧
        fn = joinWith '/' nc))
    (h : safe_join_checked "uploads".data fn = some p) :
    resolves_within_uploads p = true := by
  rcases hclass with rfl | h1 | rfl | h1 | ⟨nc, hncne, hdd, helem, hfneq⟩
  · have he : safe_join_checked "uploads".data sdot = some "uploads/.".data := by
      decide
    rw [he, Option.some.injEq] at h
    subst h
    decide
  · simp [safe_join_checked, h1] at h
  · have he : safe_join_checked "uploads".data ddot = none := by decide
    rw [he] at h
    cases h
  · simp [safe_join_checked, h1] at h
  · subst hfneq
    by_cases hC : (startsWithL ['/'] (joinWith '/' nc) || (joinWith '/' nc == ddot) ||
        startsWithL (ddot ++ ['/']) (joinWith '/' nc)) = true
    · simp only [safe_join_checked, if_pos hC] at h
      exact absurd h (by simp)
    · simp only [safe_join_checked, if_neg hC] at h
      rw [Option.some.injEq] at h
      simp only [Bool.or_eq_true, not_or] at hC
      obtain ⟨⟨hC1, hC2⟩, hC3⟩ := hC
      have hj1 : posix_join "uploads".data (joinWith '/' nc) =
          "uploads".data ++ '/' :: joinWith '/' nc := by
        rw [posix_join, if_neg hC1, if_neg (by decide)]
      rw [hj1] at h
      subst h
      have habs : absCount ("uploads".data ++ '/' :: joinWith '/' nc) = 0 := by
        simp [absCount, startsWithL]
      have hpne : ("uploads".data ++ '/' :: joinWith '/' nc : List Char) ≠ [] := by simp
      have hsplit : splitOnSlash ("uploads".data ++ '/' :: joinWith '/' nc) =
          "uploads".data :: nc := by
        show splitOnChar '/' _ = _
        rw [splitOnChar_append (joinWith '/' nc) (by decide)]
        congr 1
        exact splitOnChar_joinWith hncne fun g hg => (helem g hg).1
      have hcond : ∀ c ∈ ("uploads".data :: nc), ¬(c = [] ∨ c = sdot) ∧ c ≠ ddot := by
        intro c hc
        rcases List.mem_cons.mp hc with rfl | hc'
        · exact ⟨by decide, by decide⟩
        · exact ⟨fun hor => hor.elim (helem c hc').2.1 (helem c hc').2.2,
            fun h' => hdd (h' ▸ hc')⟩
      have hid : normparts 0 ("uploads".data :: nc) [] = "uploads".data :: nc := by
        rw [normparts_id [] hcond]
        rfl
      have hn : posix_normpath ("uploads".data ++ '/' :: joinWith '/' nc) =
          "uploads".data ++ '/' :: joinWith '/' nc := by
        simp only [posix_normpath, if_neg hpne, habs, hsplit, hid,
          joinWith_cons '/' _ hncne]
        simp only [normpath_finish, List.replicate, List.nil_append]
        rw [if_neg (by simp)]
      simp only [resolves_within_uploads]
      rw [hn]
      have hsw : startsWithL "uploads/".data
          ("uploads".data ++ '/' :: joinWith '/' nc) = true := by
        rw [show ("uploads/".data : List Char) = "uploads".data ++ ['/'] from by decide]
        exact startsWithL_append_cons _ '/' _
      rw [hsw]
      simp

/-- Every path `safe_join` produces under the `uploads` directory resolves to a
location within the upload directory. -/
theorem safe_join_uploads_within (l p : List Char)
    (h : safe_join "uploads".data l = some p) :
    resolves_within_uploads p = true := by
  by_cases hl : l = []
  · subst hl
    have he : safe_join "uploads".data [] = some "uploads/".data := by decide
    rw [he, Option.some.injEq] at h
    subst h
    decide
  · unfold safe_join at h
    rw [if_neg (show ¬("uploads".data = ([] : List Char)) from by decide),
      if_neg hl] at h
    exact checked_uploads_within (posix_normpath l) p (posix_normpath_classes l hl) h

/-! ### Helper lemmas: `secure_filename` on already-clean names -/

theorem map_id_on (l : List Char) (f : Char → Char) (h : ∀ c ∈ l, f c = c) :
    l.map f = l := by
  induction l with
  | nil => rfl
  | cons a t ih =>
    simp [h a (by simp), ih fun c hc => h c (List.mem_cons_of_mem _ hc)]

theorem keep_char_facts {c : Char} (h : keep_char c = true) :
    c.toNat < 128 ∧ c.toNat ≠ 47 ∧ pyIsSpaceChar c = false := by
  simp only [keep_char, isAsciiLetter, isAsciiDigitC, Bool.or_eq_true,
    Bool.and_eq_true, decide_eq_true_eq, beq_iff_eq] at h
  refine ⟨by omega, by omega, ?_⟩
  rw [Bool.eq_false_iff]
  intro hs
  simp only [pyIsSpaceChar, Bool.or_eq_true, Bool.and_eq_true, decide_eq_true_eq,
    beq_iff_eq] at hs
  omega

theorem py_split_ws_aux_no_ws : ∀ (l acc : List Char),
    (∀ c ∈ l, pyIsSpaceChar c = false) →
    py_split_ws_aux acc l =
      if acc.reverse ++ l = [] then [] else [acc.reverse ++ l] := by
  intro l
  induction l with
  | nil =>
    intro acc _
    cases acc <;> simp [py_split_ws_aux]
  | cons c cs ih =>
    intro acc h
    have hc : pyIsSpaceChar c = false := h c (List.mem_cons_self c cs)
    simp only [py_split_ws_aux, hc, Bool.false_eq_true, if_false]
    rw [ih (c :: acc) fun x hx => h x (List.mem_cons_of_mem c hx)]
    simp [List.reverse_cons, List.append_assoc]

theorem strip_du_eq_self (l : List Char)
    (h0 : ∀ c, l.head? = some c → is_dot_or_us c = false)
    (h1 : ∀ c, l.getLast? = some c → is_dot_or_us c = false) :
    strip_du l = l := by
  unfold strip_du
  cases l with
  | nil => rfl
  | cons a t =>
    have ha := h0 a rfl
    rw [List.dropWhile_cons, if_neg (by simp [ha])]
    rcases hr : (a :: t).reverse with _ | ⟨b, u⟩
    · simp at hr
    · have hb : (a :: t).getLast? = some b := by
        rw [← List.head?_reverse, hr]
        rfl
      have hbf := h1 b hb
      have hdw : List.dropWhile is_dot_or_us (b :: u) = b :: u := by
        simp [List.dropWhile_cons, hbf]
      rw [hdw, ← hr, List.reverse_reverse]

theorem secure_filename_eq_self (l : List Char) (hl : l ≠ [])
    (hk : ∀ c ∈ l, keep_char c = true)
    (h0 : ∀ c, l.head? = some c → is_dot_or_us c = false)
    (h1 : ∀ c, l.getLast? = some c → is_dot_or_us c = false) :
    secure_filename ⟨l⟩ = ⟨l⟩ := by
  have hstr : ascii_strip l = l :=
    List.filter_eq_self.mpr fun c hc => decide_eq_true (keep_char_facts (hk c hc)).1
  have hmap : l.map sep_to_space = l := map_id_on l sep_to_space fun c hc => by
    unfold sep_to_space
    rw [if_neg (keep_char_facts (hk c hc)).2.1]
  have hsplit : py_split_ws l = [l] := by
    unfold py_split_ws
    rw [py_split_ws_aux_no_ws l [] fun c hc => (keep_char_facts (hk c hc)).2.2]
    simp [hl]
  have hfilter : l.filter keep_char = l := List.filter_eq_self.mpr hk
  have hdef : secure_filename ⟨l⟩ = ⟨strip_du ((joinWith '_'
      (py_split_ws ((ascii_strip l).map sep_to_space))).filter keep_char)⟩ := rfl
  rw [hdef, hstr, hmap, hsplit, show joinWith '_' [l] = l from rfl, hfilter,
    strip_du_eq_self l h0 h1]

theorem digitChar10_keep (n : Nat) : keep_char (digitChar10 n) = true := by
  have h : n % 10 < 10 := Nat.mod_lt _ (by omega)
  obtain ⟨k, hk, he⟩ : ∃ k, k < 10 ∧ n % 10 = k := ⟨n % 10, h, rfl⟩
  unfold digitChar10
  rw [he]
  interval_cases k <;> decide

theorem isoformat_keep (d : PyDate) :
    ∀ c ∈ (PyDate.isoformat d).data, keep_char c = true := by
  intro c hc
  have hd : (PyDate.isoformat d).data =
      [digitChar10 (d.year / 1000), digitChar10 (d.year / 100),
       digitChar10 (d.year / 10), digitChar10 d.year, '-',
       digitChar10 (d.month / 10), digitChar10 d.month, '-',
       digitChar10 (d.day / 10), digitChar10 d.day] := rfl
  rw [hd] at hc
  simp only [List.mem_cons, List.not_mem_nil, or_false] at hc
  rcases hc with rfl | rfl | rfl | rfl | rfl | rfl | rfl | rfl | rfl | rfl
  exacts [digitChar10_keep _, digitChar10_keep _, digitChar10_keep _,
    digitChar10_keep _, by decide, digitChar10_keep _, digitChar10_keep _,
    by decide, digitChar10_keep _, digitChar10_keep _]

/-! ### Helper lemmas: form-level validation -/

theorem list_isEmpty_eq_false {α : Type} {l : List α} (h : l ≠ []) :
    l.isEmpty = false := by
  cases l with
  | nil => exact absurd rfl h
  | cons a t => rfl

theorem form_validate_eq_false_of_logo (f : ConsultationForm) (today : PyDate)
    (h : clinic_logo_errors f.clinic_logo ≠ []) :
    form_validate f today = false := by
  unfold form_validate
  simp [list_isEmpty_eq_false h]

theorem form_validate_eq_false_of_physician (f : ConsultationForm) (today : PyDate)
    (h : physician_name_errors f.physician_name ≠ []) :
    form_validate f today = false := by
  unfold form_validate
  simp [list_isEmpty_eq_false h]

theorem index_of_invalid (f : ConsultationForm) (today : PyDate) (pdf_ok : Bool)
    (fs : List (List Char)) (h : form_validate f today = false) :
    index f today pdf_ok fs = (WebResponse.formPage, fs) := by
  unfold index
  simp [h]

theorem validate_numbers_only_none_iff (s : String) :
    validate_numbers_only s = none ↔
      (s.data ≠ [] ∧ ∀ c ∈ s.data, pyIsDigitChar c = true) := by
  have hiff : validate_numbers_only s = none ↔ str_isdigit s = true := by
    unfold validate_numbers_only
    split <;> simp_all
  rw [hiff]
  simp [str_isdigit, List.isEmpty_iff, List.all_eq_true]

/-! ### Claim theorems -/

/-- C3 counterexample: for DOB 2026-01-01 with current date 2025-12-31 the validator
fails, but its error message is `"Date of birth cannot be in the future."`, not the
claim's quoted `"Date cannot be in the future"`. -/
theorem C3_counterexample :
    validate_date_not_above_current ⟨2026, 1, 1⟩ ⟨2025, 12, 31⟩ =
      some "Date of birth cannot be in the future." ∧
    validate_date_not_above_current ⟨2026, 1, 1⟩ ⟨2025, 12, 31⟩ ≠
      some "Date cannot be in the future" := by
  decide

/-- C3 (amended): `validate_date_not_above_current` fails with the error
`"Date of birth cannot be in the future."` for every date strictly after the current
date, and passes for every date on or before the current date. -/
theorem C3_amended (d today : PyDate) :
    (PyDate.Lt today d →
      validate_date_not_above_current d today =
        some "Date of birth cannot be in the future.") ∧
    (¬PyDate.Lt today d → validate_date_not_above_current d today = none) := by
  constructor
  · intro h
    unfold validate_date_not_above_current
    rw [if_pos ((PyDate.ltb_iff today d).mpr h)]
  · intro h
    unfold validate_date_not_above_current
    rw [if_neg fun hb => h ((PyDate.ltb_iff today d).mp hb)]

/-- C3 witness: the amended statement at the concrete dates 2026-01-01 (future,
fails) and 2024-01-01 (past, passes), with current date 2025-06-15. -/
theorem C3_witness :
    validate_date_not_above_current ⟨2026, 1, 1⟩ ⟨2025, 6, 15⟩ =
      some "Date of birth cannot be in the future." ∧
    validate_date_not_above_current ⟨2024, 1, 1⟩ ⟨2025, 6, 15⟩ = none :=
  ⟨(C3_amended ⟨2026, 1, 1⟩ ⟨2025, 6, 15⟩).1 (by decide),
   (C3_amended ⟨2024, 1, 1⟩ ⟨2025, 6, 15⟩).2 (by decide)⟩

/-- C4 counterexample: on the unparseable input `"2020-13-05"` the `patient_dob`
field fails with WTForms' generic process error (and the required error), and the
custom validator's `"Invalid date format. Please use YYYY-MM-DD."` branch is not
taken. -/
theorem C4_counterexample :
    strptime_Ymd "2020-13-05" = none ∧
    patient_dob_errors "2020-13-05" ⟨2025, 6, 1⟩ =
      ["Not a valid date value.", "This field is required."] ∧
    "Invalid date format. Please use YYYY-MM-DD." ∉
      patient_dob_errors "2020-13-05" ⟨2025, 6, 1⟩ := by
  decide

/-- C4 (amended): for every input, the `patient_dob` field never produces the custom
validator's `"Invalid date format. Please use YYYY-MM-DD."` message (the
`except ValueError` branch is unreachable: the validator only runs on parsed dates);
unparseable input instead fails with `"Not a valid date value."` plus the required
error. -/
theorem C4_amended (raw : String) (today : PyDate) :
    "Invalid date format. Please use YYYY-MM-DD." ∉ patient_dob_errors raw today ∧
    (strptime_Ymd raw = none →
      patient_dob_errors raw today =
        ["Not a valid date value.", "This field is required."]) := by
  constructor
  · unfold patient_dob_errors
    cases hp : strptime_Ymd raw with
    | none =>
      show "Invalid date format. Please use YYYY-MM-DD." ∉
        ["Not a valid date value.", "This field is required."]
      decide
    | some d =>
      show "Invalid date format. Please use YYYY-MM-DD." ∉
        (match validate_date_not_above_current d today with
          | none => ([] : List String)
          | some m => [m])
      cases hv : validate_date_not_above_current d today with
      | none =>
        show "Invalid date format. Please use YYYY-MM-DD." ∉ ([] : List String)
        simp
      | some m =>
        have hm : m = "Date of birth cannot be in the future." := by
          unfold validate_date_not_above_current at hv
          split at hv
          · exact (Option.some.inj hv).symm
          · cases hv
        show "Invalid date format. Please use YYYY-MM-DD." ∉ [m]
        rw [hm]
        decide
  · intro h
    unfold patient_dob_errors
    rw [h]

/-- C4 witness: the amended statement at the unparseable input `"not-a-date"`. -/
theorem C4_witness :
    patient_dob_errors "not-a-date" ⟨2025, 6, 1⟩ =
      ["Not a valid date value.", "This field is required."] :=
  (C4_amended "not-a-date" ⟨2025, 6, 1⟩).2 (by decide)

/-- C5 counterexample: the superscript-two character passes
`validate_numbers_only` (Python's `str.isdigit` accepts it) although it is not a
decimal digit. -/
theorem C5_counterexample :
    validate_numbers_only "²" = none ∧ isDecimalDigit '²' = false := by
  decide

/-- C5 (amended): `validate_numbers_only` passes exactly the non-empty strings whose
every character satisfies Python's `str.isdigit` character class — a strict superset
of the decimal digits; in particular it passes every non-empty string of decimal
digits. -/
theorem C5_amended :
    (∀ s : String, validate_numbers_only s = none ↔
      (s.data ≠ [] ∧ ∀ c ∈ s.data, pyIsDigitChar c = true)) ∧
    (∀ s : String, s.data ≠ [] → (∀ c ∈ s.data, isDecimalDigit c = true) →
      validate_numbers_only s = none) :=
  ⟨validate_numbers_only_none_iff,
   fun s h1 h2 => (validate_numbers_only_none_iff s).mpr
     ⟨h1, fun c hc => by simp [pyIsDigitChar, h2 c hc]⟩⟩

/-- C5 witness: the amended statement at the all-decimal-digit string
`"0123456789"`. -/
theorem C5_witness : validate_numbers_only "0123456789" = none :=
  C5_amended.2 "0123456789" (by decide) (by decide)

/-- C9: the digits-only check accepts any string whose `str.isdigit` is true, and in
particular the Arabic-Indic digit string `"٣٤"`, none of whose characters is an
ASCII decimal digit, passes validation. -/
theorem C9_unicode_digits :
    (∀ s : String, str_isdigit s = true → validate_numbers_only s = none) ∧
    validate_numbers_only "٣٤" = none ∧
    (∀ c ∈ "٣٤".data, isAsciiDigitC c = false) := by
  refine ⟨fun s h => ?_, by decide, by decide⟩
  unfold validate_numbers_only
  rw [if_pos h]

/-- C9 witness: the general direction at the concrete all-digit string `"42"`. -/
theorem C9_witness : validate_numbers_only "42" = none :=
  C9_unicode_digits.1 "42" (by decide)

/-- C10: report generation is not atomic — the logo is saved before the PDF is
rendered, so when the PDF step fails, `generate_pdf` raises with the logo already
persisted in the filesystem. -/
theorem C10_logo_persisted_on_failure (f : ConsultationForm) (dob : PyDate)
    (logoName : String) (fs : List (List Char)) :
    generate_pdf f dob logoName false fs =
      Except.error (fs ++ [clinic_logo_save_path logoName]) ∧
    clinic_logo_save_path logoName ∈ fs ++ [clinic_logo_save_path logoName] := by
  exact ⟨rfl, by simp⟩

/-- C6 counterexample: `"John\tDoe"` contains a tab — neither an ASCII letter nor a
space — yet the letters-and-spaces validator passes it (the regex class is
`[a-zA-Z\s]`, and `\s` matches the tab). -/
theorem C6_counterexample :
    physician_name_errors "John\tDoe" = [] ∧
    '\t' ∈ "John\tDoe".data ∧ isAsciiLetter '\t' = false ∧ '\t' ≠ ' ' := by
  decide

/-- C6 (amended): the letters-and-spaces validator fails for every string containing
a character that is neither an ASCII letter nor a `\s` whitespace character; the
submission with physician name `"John123"` gets the field error
`"Physician name must contain characters only."` (which mentions "characters only")
and the request re-renders the form without writing any file. -/
theorem C6_amended :
    (∀ (s : String) (c : Char), c ∈ s.data → isAsciiLetter c = false →
      pyIsSpaceChar c = false → physician_name_errors s ≠ []) ∧
    (∀ (today : PyDate) (pdf_ok : Bool) (fs : List (List Char)),
      index exampleFormJohn123 today pdf_ok fs = (WebResponse.formPage, fs)) ∧
    physician_name_errors "John123" =
      ["Physician name must contain characters only."] := by
  refine ⟨?_, ?_, by decide⟩
  · intro s c hc h1 h2
    unfold physician_name_errors letters_field_errors
    split
    · simp
    · split
      · next hm =>
        simp only [matches_letters_spaces, List.all_eq_true] at hm
        have := hm c hc
        rw [h1, h2] at this
        simp at this
      · simp
  · intro today pdf_ok fs
    exact index_of_invalid _ _ _ _
      (form_validate_eq_false_of_physician _ _ (by decide))

/-- C6 witness: the amended statement at the string `"Jo!n"` (with the non-letter,
non-space character `'!'`) and at the `"John123"` submission. -/
theorem C6_witness :
    physician_name_errors "Jo!n" ≠ [] ∧
    index exampleFormJohn123 ⟨2025, 1, 1⟩ true [] = (WebResponse.formPage, []) :=
  ⟨C6_amended.1 "Jo!n" '!' (by decide) (by decide) (by decide),
   C6_amended.2.1 ⟨2025, 1, 1⟩ true []⟩

/-- C7: a submission whose clinic logo is absent, or whose filename's extension is
outside the case-insensitively compared allow-list {jpg, png}, is rejected as a
validation error: `index` re-renders the form and the filesystem is unchanged (no
file is written); `.gif` is rejected while the differently-cased `.PNG` passes the
extension check. -/
theorem C7_logo_allowlist :
    (∀ (f : ConsultationForm) (today : PyDate) (pdf_ok : Bool)
      (fs : List (List Char)) (name : String),
      f.clinic_logo = some name → file_allowed name = false →
      index f today pdf_ok fs = (WebResponse.formPage, fs)) ∧
    (∀ (f : ConsultationForm) (today : PyDate) (pdf_ok : Bool)
      (fs : List (List Char)), f.clinic_logo = none →
      index f today pdf_ok fs = (WebResponse.formPage, fs)) ∧
    file_allowed "logo.gif" = false ∧ file_allowed "Logo.PNG" = true := by
  refine ⟨?_, ?_, by decide, by decide⟩
  · intro f today pdf_ok fs name hlogo hfa
    refine index_of_invalid _ _ _ _ (form_validate_eq_false_of_logo _ _ ?_)
    rw [hlogo]
    show (if name.data.isEmpty then ["This field is required."]
      else if file_allowed name then [] else ["Images only!"]) ≠ []
    rw [hfa]
    split <;> simp
  · intro f today pdf_ok fs hlogo
    refine index_of_invalid _ _ _ _ (form_validate_eq_false_of_logo _ _ ?_)
    rw [hlogo]
    show ["This field is required."] ≠ []
    simp

/-- C7 witness: the `.gif` submission is rejected with no file written. -/
theorem C7_witness :
    index exampleFormGif ⟨2025, 1, 1⟩ true [] = (WebResponse.formPage, []) ∧
    file_allowed "logo.gif" = false :=
  ⟨C7_logo_allowlist.1 exampleFormGif ⟨2025, 1, 1⟩ true [] "logo.gif" rfl
    (by decide), C7_logo_allowlist.2.2.1⟩

/-- C1 counterexample: the submission with logo filename `"../evil.png"` passes the
whole form validation, the successful request writes the logo to
`"uploads/" + "../evil.png"` (the filename is used unsanitised), and that path
resolves to `evil.png`, outside the upload directory. -/
theorem C1_counterexample :
    form_validate exampleFormEvil ⟨2025, 1, 1⟩ = true ∧
    clinic_logo_save_path "../evil.png" ∈
      (index exampleFormEvil ⟨2025, 1, 1⟩ true []).2 ∧
    resolves_within_uploads (clinic_logo_save_path "../evil.png") = false := by
  decide

/-- C1 (amended): the logo is written to `"uploads/" + filename` with no
sanitisation; the write path resolves inside the upload directory whenever the
submitted filename contains no path separator and is not `".."`, but filenames with
`".."` components (such as `"../evil.png"`) escape it. -/
theorem C1_amended (name : String) (h1 : '/' ∉ name.data)
    (h2 : name.data ≠ ddot) :
    resolves_within_uploads (clinic_logo_save_path name) = true := by
  have hp : clinic_logo_save_path name = "uploads".data ++ '/' :: name.data := rfl
  rw [hp]
  have hpne : ("uploads".data ++ '/' :: name.data : List Char) ≠ [] := by simp
  have habs : absCount ("uploads".data ++ '/' :: name.data) = 0 := by
    simp [absCount, startsWithL]
  have hsplitp : splitOnSlash ("uploads".data ++ '/' :: name.data) =
      "uploads".data :: [name.data] := by
    show splitOnChar '/' _ = _
    rw [splitOnChar_append name.data (by decide)]
    congr 1
    exact splitOnChar_of_not_mem h1
  by_cases hname : name.data = [] ∨ name.data = sdot
  · rcases hname with h | h <;> (rw [← hp, show clinic_logo_save_path name =
      "uploads/".data ++ name.data from rfl, h]; decide)
  · have hcond : ∀ c ∈ ("uploads".data :: [name.data]),
        ¬(c = [] ∨ c = sdot) ∧ c ≠ ddot := by
      intro c hc
      rcases List.mem_cons.mp hc with rfl | hc'
      · exact ⟨by decide, by decide⟩
      · rcases List.mem_singleton.mp hc' with rfl
        exact ⟨hname, h2⟩
    have hid : normparts 0 ("uploads".data :: [name.data]) [] =
        ["uploads".data, name.data] := by
      rw [normparts_id [] hcond]
      rfl
    have hn : posix_normpath ("uploads".data ++ '/' :: name.data) =
        "uploads".data ++ '/' :: name.data := by
      simp only [posix_normpath, if_neg hpne, habs, hsplitp, hid]
      rw [show joinWith '/' ["uploads".data, name.data] =
        "uploads".data ++ '/' :: name.data from rfl]
      simp only [normpath_finish, List.replicate, List.nil_append]
      rw [if_neg (by simp)]
    unfold resolves_within_uploads
    rw [hn, show ("uploads/".data : List Char) = "uploads".data ++ ['/'] from
      by decide, startsWithL_append_cons]
    simp

/-- C1 witness: the amended statement at the separator-free filename
`"logo.png"`. -/
theorem C1_witness :
    resolves_within_uploads (clinic_logo_save_path "logo.png") = true :=
  C1_amended "logo.png" (by decide) (by decide)

/-- C8: the `GET /uploads/<path>` handler only ever serves files whose path resolves
within the upload directory; the traversal request `"../../etc/passwd"` gets 404
(modelled as `none`) for every filesystem state, as does any request when the file
store is empty (absent files). -/
theorem C8_send_report_safe :
    (∀ (path : String) (store : List (List Char × List Char)) (p bytes : List Char),
      send_report path store = some (p, bytes) →
      resolves_within_uploads p = true) ∧
    (∀ store, send_report "../../etc/passwd" store = none) ∧
    (∀ path, send_report path [] = none) := by
  refine ⟨?_, ?_, ?_⟩
  · intro path store p bytes h
    unfold send_report send_from_directory at h
    cases hsj : safe_join "uploads".data path.data with
    | none => rw [hsj] at h; cases h
    | some q =>
      rw [hsj] at h
      have h2 : (match store_get q store with
          | none => none
          | some bytes => some (q, bytes)) = some (p, bytes) := h
      cases hsg : store_get q store with
      | none => rw [hsg] at h2; cases h2
      | some b =>
        rw [hsg] at h2
        have hq : q = p := ((Prod.mk.injEq _ _ _ _).mp (Option.some.inj h2)).1
        exact hq ▸ safe_join_uploads_within path.data q hsj
  · intro store
    unfold send_report send_from_directory
    rw [show safe_join "uploads".data "../../etc/passwd".data = none from by decide]
  · intro path
    unfold send_report send_from_directory
    cases hsj : safe_join "uploads".data path.data with
    | none => rfl
    | some q => rfl

/-- C8 witness: with a store holding `uploads/report.pdf`, the handler serves that
file (whose path resolves within the upload directory) and 404s the traversal
request. -/
theorem C8_witness :
    resolves_within_uploads "uploads/report.pdf".data = true ∧
    send_report "../../etc/passwd" [("uploads/report.pdf".data, "PDF".data)] =
      none :=
  ⟨C8_send_report_safe.1 "report.pdf" [("uploads/report.pdf".data, "PDF".data)]
    "uploads/report.pdf".data "PDF".data (by decide),
   C8_send_report_safe.2.1 [("uploads/report.pdf".data, "PDF".data)]⟩

/-- C2: for names made of ASCII letters, the generated report's filename is exactly
`CR_<LastName>_<FirstName>_<YYYY-MM-DD>.pdf` — the string `secure_filename` receives
is already clean, so sanitisation leaves it unchanged. -/
theorem C2_report_filename (lastName firstName : String) (dob : PyDate)
    (hlast : ∀ c ∈ lastName.data, isAsciiLetter c = true)
    (hfirst : ∀ c ∈ firstName.data, isAsciiLetter c = true) :
    report_filename lastName firstName dob =
      "CR_" ++ lastName ++ "_" ++ firstName ++ "_" ++ PyDate.isoformat dob ++
        ".pdf" := by
  unfold report_filename
  have hw : ("CR_" ++ lastName ++ "_" ++ firstName ++ "_" ++ PyDate.isoformat dob
      ++ ".pdf").data =
      "CR_".data ++ lastName.data ++ "_".data ++ firstName.data ++ "_".data ++
        (PyDate.isoformat dob).data ++ ".pdf".data := rfl
  have hletter : ∀ {c : Char}, isAsciiLetter c = true → keep_char c = true := by
    intro c h
    simp [keep_char, h]
  have hhead : ("CR_" ++ lastName ++ "_" ++ firstName ++ "_" ++
      PyDate.isoformat dob ++ ".pdf").data.head? = some 'C' := by
    rw [hw]
    rfl
  have hgetLast : ("CR_" ++ lastName ++ "_" ++ firstName ++ "_" ++
      PyDate.isoformat dob ++ ".pdf").data.getLast? = some 'f' := by
    rw [hw, List.getLast?_append_of_ne_nil _ (by decide)]
    decide
  have hne : ("CR_" ++ lastName ++ "_" ++ firstName ++ "_" ++
      PyDate.isoformat dob ++ ".pdf").data ≠ [] := by
    intro hemp
    rw [hw] at hemp
    simp at hemp
  have hk : ∀ c ∈ ("CR_" ++ lastName ++ "_" ++ firstName ++ "_" ++
      PyDate.isoformat dob ++ ".pdf").data, keep_char c = true := by
    intro c hc
    rw [hw] at hc
    simp only [List.mem_append] at hc
    rcases hc with ((((((h | h) | h) | h) | h) | h) | h)
    · exact (by decide : ∀ x ∈ "CR_".data, keep_char x = true) c h
    · exact hletter (hlast c h)
    · exact (by decide : ∀ x ∈ "_".data, keep_char x = true) c h
    · exact hletter (hfirst c h)
    · exact (by decide : ∀ x ∈ "_".data, keep_char x = true) c h
    · exact isoformat_keep dob c h
    · exact (by decide : ∀ x ∈ ".pdf".data, keep_char x = true) c h
  have h0 : ∀ c, ("CR_" ++ lastName ++ "_" ++ firstName ++ "_" ++
      PyDate.isoformat dob ++ ".pdf").data.head? = some c →
      is_dot_or_us c = false := by
    intro c hc
    rw [hhead] at hc
    injection hc with hce
    rw [← hce]
    decide
  have h1 : ∀ c, ("CR_" ++ lastName ++ "_" ++ firstName ++ "_" ++
      PyDate.isoformat dob ++ ".pdf").data.getLast? = some c →
      is_dot_or_us c = false := by
    intro c hc
    rw [hgetLast] at hc
    injection hc with hce
    rw [← hce]
    decide
  exact secure_filename_eq_self _ hne hk h0 h1

/-- C2 witness: last name `"Smith"`, first name `"Jane"`, DOB 2020-01-01 give
exactly `CR_Smith_Jane_2020-01-01.pdf`. -/
theorem C2_witness :
    report_filename "Smith" "Jane" ⟨2020, 1, 1⟩ = "CR_Smith_Jane_2020-01-01.pdf" := by
  rw [C2_report_filename "Smith" "Jane" ⟨2020, 1, 1⟩ (by decide) (by decide)]
  decide
